import Mathlib

/-!
# Verification of the WildDuck `MessageSplitter` (lib/message-splitter.js)

A shallow embedding of the `MessageSplitter` transform stream from
`lib/message-splitter.js`.  Buffers are modelled as `List Nat` (byte values);
JavaScript strings are identified with their byte sequences (all inputs in
this development are ASCII, where the UTF-8/UTF-16 distinction is invisible).
Numbers that JavaScript computes with possibly-negative values
(`headerPos = i - lblen + 1`, `indexOf` results, slice indices) are modelled
as `Int`, and `Buffer.slice` / `substr` get faithful models of their
negative-index semantics.

The stream machinery (`_transform` / `_flush` / `emit` / `push`) is modelled
as a state machine producing an explicit ordered list of events: Node's
`setImmediate` deferrals preserve FIFO order inside a single stream, so the
sequential event list is the observable order (`emit('headers')` is
synchronous and precedes the `setImmediate`-deferred first body push; the
transform callback is itself deferred behind that push).
-/

set_option autoImplicit false

namespace MessageSplitter

/-! ### JavaScript primitives on byte lists -/

/-- Normalize a possibly-negative JS index against a length, as
`Buffer.slice` does: negative indices count from the end, and the result is
clamped into `[0, len]`. -/
def jsNormIdx (len : Nat) (x : Int) : Nat :=
  if x < 0 then ((len : Int) + x).toNat else min x.toNat len

/-- `buf.slice(s, e)` on a `Buffer`. -/
def jsSlice (l : List Nat) (s e : Int) : List Nat :=
  (l.take (jsNormIdx l.length e)).drop (jsNormIdx l.length s)

/-- `buf.slice(s)` (end defaults to the length). -/
def jsSliceFrom (l : List Nat) (s : Int) : List Nat :=
  jsSlice l s l.length

/-- `str.indexOf(b)`: index of the first occurrence, `-1` if absent. -/
def jsIndexOf (l : List Nat) (b : Nat) : Int :=
  match l with
  | [] => -1
  | x :: xs =>
    if x = b then 0
    else
      let r := jsIndexOf xs b
      if r < 0 then -1 else r + 1

/-- `str.substr(0, len)`: the first `len` characters; a non-positive `len`
yields the empty string. -/
def jsSubstr0 (l : List Nat) (len : Int) : List Nat :=
  if len ≤ 0 then [] else l.take len.toNat

/-- `Buffer.concat(list, totalLength)`: the chunks joined, truncated to
`totalLength` (zero bytes modelling the allocated remainder if the chunks
fall short; in this program `totalLength` always equals the joined length,
so neither truncation nor padding ever occurs). -/
def jsBufferConcat (ls : List (List Nat)) (total : Int) : List Nat :=
  let j := ls.flatten
  j.take total.toNat ++ List.replicate (total.toNat - j.length) 0

/-! ### Header parsing (`_normalizeHeader`, `parseHeaders`) -/

/-- A byte of JavaScript `String.prototype.trim` whitespace (ASCII part). -/
def isWsByte (b : Nat) : Bool :=
  b == 32 || b == 9 || b == 10 || b == 13 || b == 11 || b == 12

/-- `str.toLowerCase()` restricted to ASCII. -/
def jsToLower (l : List Nat) : List Nat :=
  l.map fun b => if 65 ≤ b ∧ b ≤ 90 then b + 32 else b

/-- `str.trim()` (ASCII whitespace). -/
def jsTrim (l : List Nat) : List Nat :=
  ((l.dropWhile isWsByte).reverse.dropWhile isWsByte).reverse

/-- `_normalizeHeader(key)`: `(key || '').toLowerCase().trim()`. -/
def normalizeHeader (key : List Nat) : List Nat :=
  jsTrim (jsToLower key)

/-- `headers.toString().replace(/[\r\n]+$/, '')`: strip the trailing run of
CR and LF bytes. -/
def stripTrailingCRLF (l : List Nat) : List Nat :=
  (l.reverse.dropWhile fun b => b == 13 || b == 10).reverse

/-- Split on the regex `/\r?\n/`: a LF terminates the current line, consuming
one immediately preceding CR; a bare CR is ordinary line content.  `acc`
holds the bytes of the current line in reverse. -/
def splitLinesAux (acc : List Nat) : List Nat → List (List Nat)
  | [] => [acc.reverse]
  | 13 :: 10 :: rest => acc.reverse :: splitLinesAux [] rest
  | 10 :: rest => acc.reverse :: splitLinesAux [] rest
  | b :: rest => splitLinesAux (b :: acc) rest

/-- `str.split(/\r?\n/)`. -/
def splitLines (l : List Nat) : List (List Nat) :=
  splitLinesAux [] l

/-- One parsed header entry `{key, line}`. -/
structure HeaderEntry where
  key : List Nat
  line : List Nat
deriving Repr, DecidableEq

/-- `lines[i].charAt(0) === ' ' || lines[i].charAt(0) === '\t'`
(`charAt(0)` of the empty string is the empty string, which matches
neither). -/
def isContinuationLine (l : List Nat) : Bool :=
  match l with
  | [] => false
  | c :: _ => c == 32 || c == 9

/-- Build the `{key, line}` object for one fully merged line:
`key = _normalizeHeader(line.substr(0, line.indexOf(':')))`. -/
def mkEntry (line : List Nat) : HeaderEntry :=
  { key := normalizeHeader (jsSubstr0 line (jsIndexOf line 58)), line := line }

/-- The splice loop of `parseHeaders`, rendered functionally: the JS loop
walks the line array from the last index down, appending any line that
starts with space/tab onto its predecessor (separated by `'\n'`) and
splicing it out, and turning every other line into its entry object.  That
is equivalent to this left-to-right pass where `cur` is the line currently
absorbing continuations. -/
def headerGo (cur : List Nat) : List (List Nat) → List HeaderEntry
  | [] => [mkEntry cur]
  | x :: xs =>
    if isContinuationLine x then headerGo (cur ++ 10 :: x) xs
    else mkEntry cur :: headerGo x xs

/-- Dispatch on the (never actually empty) line list. -/
def parseLines (lines : List (List Nat)) : List HeaderEntry :=
  match lines with
  | [] => []
  | l :: ls => headerGo l ls

/-- `parseHeaders(headers)` from `lib/message-splitter.js`. -/
def parseHeaders (headers : List Nat) : List HeaderEntry :=
  parseLines (splitLines (stripTrailingCRLF headers))

/-! ### Boundary detection (the scan loop of `checkHeaders`) -/

/-- The byte at index `i` of the virtual concatenation `lastBytes ++ data`:
`i < lblen ? this.lastBytes[i] : data[i - lblen]`. -/
def byteAt (lb data : List Nat) (i : Nat) : Nat :=
  if i < lb.length then lb.getD i 0 else data.getD (i - lb.length) 0

/-- The per-index test of the scan loop: `chr === 0x0A && i` and then either
`pr1 === 0x0A`, or `pr1 === 0x0D && pr2 === 0x0A` where `pr2` is the byte at
`i-2` when `i > 1` and the non-matching value `false` otherwise. -/
def fireAt (lb data : List Nat) (i : Nat) : Bool :=
  byteAt lb data i == 10 && i != 0 &&
    (byteAt lb data (i - 1) == 10 ||
      (byteAt lb data (i - 1) == 13 && decide (1 < i) && byteAt lb data (i - 2) == 10))

/-- The scan loop `for (i = 0; i < len; i++) ... break`, with the remaining
iteration count `fuel = len - i` made explicit; returns the loop index at
which the break fired. -/
def findBoundaryAux (lb data : List Nat) (i : Nat) : Nat → Option Nat
  | 0 => none
  | fuel + 1 =>
    if fireAt lb data i then some i else findBoundaryAux lb data (i + 1) fuel

/-- The index (into `lastBytes ++ data`) at which the boundary scan of
`checkHeaders` breaks, if any. -/
def findBoundary (lb data : List Nat) : Option Nat :=
  findBoundaryAux lb data 0 (lb.length + data.length)

/-! ### `updateLastBytes` -/

/-- `updateLastBytes(data)`: the two in-place loops (shift the surviving old
bytes down, write the trailing `nblen` bytes of `data` into the top slots),
expressed as the resulting array slot by slot. -/
def updateLastBytes (lb data : List Nat) : List Nat :=
  let lblen := lb.length
  let nblen := min data.length lblen
  (List.range lblen).map fun i =>
    if i < lblen - nblen then lb.getD (i + nblen) 0
    else data.getD (data.length - (lblen - i)) 0

/-! ### The stream state machine -/

/-- The mutable fields of a `MessageSplitter` instance.  `headerChunks` is
`none` once the JS field is set to `null`; `rawHeaders`/`headers` are `none`
while the JS fields still hold their initial `false`. -/
structure SplitterState where
  lastBytes : List Nat
  headersParsed : Bool
  headerBytes : Int
  headerChunks : Option (List (List Nat))
  rawHeaders : Option (List Nat)
  headers : Option (List HeaderEntry)
  bodySize : Int
deriving Repr, DecidableEq

/-- The constructor state. -/
def initialState : SplitterState :=
  { lastBytes := List.replicate 4 0
    headersParsed := false
    headerBytes := 0
    headerChunks := some []
    rawHeaders := none
    headers := none
    bodySize := 0 }

/-- An observable output of the stream: the `'headers'` event or one body
chunk pushed downstream. -/
inductive SplitterEvent where
  | headers (block : List HeaderEntry)
  | body (chunk : List Nat)
deriving Repr, DecidableEq

def SplitterEvent.isBody : SplitterEvent → Bool
  | .headers _ => false
  | .body _ => true

def SplitterEvent.isHeaders : SplitterEvent → Bool
  | .headers _ => true
  | .body _ => false

/-- Total byte count of the body events in a list. -/
def bodyBytesOf (evs : List SplitterEvent) : Int :=
  match evs with
  | [] => 0
  | .headers _ :: rest => bodyBytesOf rest
  | .body c :: rest => (c.length : Int) + bodyBytesOf rest

/-- `checkHeaders(data)`: returns the next state, the events produced (in
observation order), and the boolean return value (`true` only when headers
were already parsed on entry). -/
def checkHeaders (st : SplitterState) (data : List Nat) :
    SplitterState × List SplitterEvent × Bool :=
  if st.headersParsed then (st, [], true)
  else
    match findBoundary st.lastBytes data with
    | some i =>
      let lblen : Int := st.lastBytes.length
      let headerPos : Int := (i : Int) - lblen + 1
      let headerBytes := st.headerBytes + headerPos
      let chunks := st.headerChunks.getD [] ++ [jsSlice data 0 headerPos]
      let raw := jsBufferConcat chunks headerBytes
      let hdrs := parseHeaders raw
      let pushLeftover : Bool := (data.length : Int) - 1 > headerPos
      let leftover := jsSliceFrom data headerPos
      ({ st with
          headersParsed := true
          headerBytes := headerBytes
          headerChunks := none
          rawHeaders := some raw
          headers := some hdrs
          bodySize := st.bodySize + if pushLeftover then (leftover.length : Int) else 0 },
        .headers hdrs :: (if pushLeftover then [.body leftover] else []),
        false)
    | none =>
      ({ st with
          headerBytes := st.headerBytes + data.length
          headerChunks := some (st.headerChunks.getD [] ++ [data])
          lastBytes := updateLastBytes st.lastBytes data },
        [], false)

/-- `_transform(chunk, encoding, callback)`: empty chunks are skipped; when
`checkHeaders` reports headers already parsed, the whole chunk is body. -/
def transformStep (st : SplitterState) (chunk : List Nat) :
    SplitterState × List SplitterEvent :=
  if chunk.length = 0 then (st, [])
  else
    let r := checkHeaders st chunk
    if r.2.2 then
      ({ r.1 with bodySize := r.1.bodySize + chunk.length }, r.2.1 ++ [.body chunk])
    else (r.1, r.2.1)

/-- `_flush(callback)`: if the boundary was never found, terminate the
accumulated headers with CRLF CRLF, emit them, and push a lone CRLF body. -/
def flushStep (st : SplitterState) : SplitterState × List SplitterEvent :=
  match st.headerChunks with
  | some chunks =>
    let chunks2 := chunks ++ [[13, 10, 13, 10]]
    let headerBytes := st.headerBytes + 4
    let raw := jsBufferConcat chunks2 headerBytes
    let hdrs := parseHeaders raw
    ({ st with
        headersParsed := true
        headerBytes := headerBytes
        headerChunks := none
        rawHeaders := some raw
        headers := some hdrs },
      [.headers hdrs, .body [13, 10]])
  | none => (st, [])

/-- Feed a list of chunks through `_transform`, collecting events in order. -/
def runChunks : SplitterState → List (List Nat) → SplitterState × List SplitterEvent
  | st, [] => (st, [])
  | st, c :: cs =>
    let r := transformStep st c
    let rest := runChunks r.1 cs
    (rest.1, r.2 ++ rest.2)

/-- Run a whole stream to completion: all chunks, then `_flush`.  Returns the
final state and the full ordered event list. -/
def runSplitterFull (chunks : List (List Nat)) : SplitterState × List SplitterEvent :=
  let r := runChunks initialState chunks
  let f := flushStep r.1
  (f.1, r.2 ++ f.2)

/-- The observable event sequence of a completed stream. -/
def runSplitter (chunks : List (List Nat)) : List SplitterEvent :=
  (runSplitterFull chunks).2

/-- The list of leading continuation lines absorbed into `cur`, each appended
after a single `'\n'` — the net effect of the splice loop on one run of
folded lines. -/
def foldContinuations (cur : List Nat) (conts : List (List Nat)) : List Nat :=
  conts.foldl (fun a x => a ++ 10 :: x) cur

/-- The spec's declarative boundary rule over the virtual concatenation: the
byte at `i` is LF and is preceded either by an LF, or by CR which is itself
preceded by LF. -/
def matchDecl (vc : List Nat) (i : Nat) : Prop :=
  i < vc.length ∧ vc.getD i 0 = 10 ∧
    ((1 ≤ i ∧ vc.getD (i - 1) 0 = 10) ∨
      (2 ≤ i ∧ vc.getD (i - 1) 0 = 13 ∧ vc.getD (i - 2) 0 = 10))

/-- The test input `Subject: Hello\r\n World\r\n\r\nBODY` as ASCII bytes. -/
def subjectInput : List Nat :=
  [83, 117, 98, 106, 101, 99, 116, 58, 32, 72, 101, 108, 108, 111, 13, 10,
   32, 87, 111, 114, 108, 100, 13, 10, 13, 10, 66, 79, 68, 89]

/-! ## Helper lemmas -/

theorem splitLinesAux_ne_nil (acc l : List Nat) : splitLinesAux acc l ≠ [] := by
  induction acc, l using splitLinesAux.induct with
  | case1 acc => simp [splitLinesAux]
  | case2 acc rest ih => simp [splitLinesAux]
  | case3 acc rest ih => simp [splitLinesAux]
  | case4 acc b rest h1 h2 ih =>
    rw [splitLinesAux.eq_4 acc b rest h1 h2]
    exact ih

theorem splitLines_ne_nil (l : List Nat) : splitLines l ≠ [] :=
  splitLinesAux_ne_nil [] l

theorem headerGo_length (ls : List (List Nat)) :
    ∀ cur, 1 ≤ (headerGo cur ls).length := by
  induction ls with
  | nil => intro cur; simp [headerGo]
  | cons x xs ih =>
    intro cur
    rw [headerGo]
    split
    · exact ih _
    · simp

theorem parseHeaders_length (hs : List Nat) : 1 ≤ (parseHeaders hs).length := by
  unfold parseHeaders parseLines
  split
  · exact absurd (by assumption) (splitLines_ne_nil _)
  · exact headerGo_length _ _

/-- The splice loop, characterized on one group: starting from line `cur`,
the maximal run of continuation lines after it is folded into a single
entry, and parsing resumes at the first non-continuation line. -/
theorem headerGo_span (ls : List (List Nat)) :
    ∀ cur, headerGo cur ls
      = mkEntry (foldContinuations cur (ls.takeWhile isContinuationLine))
          :: parseLines (ls.dropWhile isContinuationLine) := by
  induction ls with
  | nil => intro cur; simp [headerGo, foldContinuations, parseLines]
  | cons x xs ih =>
    intro cur
    by_cases h : isContinuationLine x = true
    · rw [headerGo]
      simp only [h, if_true, List.takeWhile_cons_of_pos h, List.dropWhile_cons_of_pos h]
      rw [ih]
      rfl
    · rw [headerGo]
      simp only [h, if_false, List.takeWhile_cons_of_neg h, List.dropWhile_cons_of_neg h]
      simp [foldContinuations, parseLines]

/-- The reachable relation between a splitter state and the events emitted so
far: nothing is observable while accumulating, and once the headers are
parsed the event log is exactly one (nonempty) header block followed by body
chunks, with the chunk buffer discarded. -/
def EvShape (st : SplitterState) (evs : List SplitterEvent) : Prop :=
  (st.headersParsed = false → evs = [] ∧ st.headerChunks.isSome = true) ∧
  (st.headersParsed = true → st.headerChunks = none ∧
    ∃ h rest, evs = .headers h :: rest ∧ (∀ e ∈ rest, e.isBody = true) ∧ 1 ≤ h.length)

/-! Branch equations for the step functions. -/

theorem checkHeaders_parsed (st : SplitterState) (c : List Nat)
    (hp : st.headersParsed = true) : checkHeaders st c = (st, [], true) := by
  simp [checkHeaders, hp]

theorem checkHeaders_noBoundary (st : SplitterState) (c : List Nat)
    (hpf : st.headersParsed = false) (hfb : findBoundary st.lastBytes c = none) :
    checkHeaders st c =
      ({ st with
          headerBytes := st.headerBytes + c.length
          headerChunks := some (st.headerChunks.getD [] ++ [c])
          lastBytes := updateLastBytes st.lastBytes c }, [], false) := by
  simp [checkHeaders, hpf, hfb]

theorem checkHeaders_found_shape (st : SplitterState) (c : List Nat) (i : Nat)
    (hpf : st.headersParsed = false) (hfb : findBoundary st.lastBytes c = some i) :
    (checkHeaders st c).1.headersParsed = true ∧
    (checkHeaders st c).1.headerChunks = none ∧
    (checkHeaders st c).2.2 = false ∧
    ∃ H lrest, (checkHeaders st c).2.1 = .headers H :: lrest ∧
      H = parseHeaders (jsBufferConcat
            (st.headerChunks.getD [] ++ [jsSlice c 0 ((i : Int) - st.lastBytes.length + 1)])
            (st.headerBytes + ((i : Int) - st.lastBytes.length + 1))) ∧
      (∀ e ∈ lrest, e.isBody = true) := by
  unfold checkHeaders
  rw [hpf, hfb]
  refine ⟨rfl, rfl, rfl, _, _, rfl, rfl, ?_⟩
  intro e he
  split at he
  · simp at he
    simp [he, SplitterEvent.isBody]
  · simp at he

theorem transformStep_empty (st : SplitterState) (c : List Nat)
    (hc : c.length = 0) : transformStep st c = (st, []) := by
  simp [transformStep, hc]

theorem transformStep_parsed (st : SplitterState) (c : List Nat)
    (hp : st.headersParsed = true) (hc : c.length ≠ 0) :
    transformStep st c =
      ({ st with bodySize := st.bodySize + c.length }, [.body c]) := by
  rw [transformStep, if_neg hc, checkHeaders_parsed st c hp]
  rfl

theorem transformStep_acc (st : SplitterState) (c : List Nat)
    (hpf : st.headersParsed = false) (hc : c.length ≠ 0)
    (hfb : findBoundary st.lastBytes c = none) :
    transformStep st c =
      ({ st with
          headerBytes := st.headerBytes + c.length
          headerChunks := some (st.headerChunks.getD [] ++ [c])
          lastBytes := updateLastBytes st.lastBytes c }, []) := by
  rw [transformStep, if_neg hc, checkHeaders_noBoundary st c hpf hfb]
  rfl

theorem transformStep_found_shape (st : SplitterState) (c : List Nat) (i : Nat)
    (hpf : st.headersParsed = false) (hc : c.length ≠ 0)
    (hfb : findBoundary st.lastBytes c = some i) :
    (transformStep st c).1.headersParsed = true ∧
    (transformStep st c).1.headerChunks = none ∧
    ∃ H lrest, (transformStep st c).2 = .headers H :: lrest ∧
      1 ≤ H.length ∧ (∀ e ∈ lrest, e.isBody = true) := by
  obtain ⟨h1, h2, h3, H, lrest, hev, hH, hbody⟩ :=
    checkHeaders_found_shape st c i hpf hfb
  have ht : transformStep st c = ((checkHeaders st c).1, (checkHeaders st c).2.1) := by
    rw [transformStep, if_neg hc, if_neg (by rw [h3]; exact Bool.false_ne_true)]
  rw [ht]
  exact ⟨h1, h2, H, lrest, hev, by rw [hH]; exact parseHeaders_length _, hbody⟩

theorem evShape_transform (st : SplitterState) (evs : List SplitterEvent)
    (c : List Nat) (hs : EvShape st evs) :
    EvShape (transformStep st c).1 (evs ++ (transformStep st c).2) := by
  by_cases hc : c.length = 0
  · rw [transformStep_empty st c hc]
    simpa using hs
  · by_cases hp : st.headersParsed = true
    · obtain ⟨hnone, h, rest, hevs, hall, hlen⟩ := hs.2 hp
      rw [transformStep_parsed st c hp hc]
      refine ⟨fun hf => by simp [hp] at hf,
        fun _ => ⟨by simpa using hnone, h, rest ++ [.body c], ?_, ?_, hlen⟩⟩
      · simp [hevs]
      · intro e he
        rcases List.mem_append.mp he with h1 | h1
        · exact hall e h1
        · simp at h1; simp [h1, SplitterEvent.isBody]
    · have hpf : st.headersParsed = false := by simpa using hp
      obtain ⟨hevs, hsome⟩ := hs.1 hpf
      subst hevs
      cases hfb : findBoundary st.lastBytes c with
      | none =>
        rw [transformStep_acc st c hpf hc hfb]
        refine ⟨fun _ => ⟨by simp, by simp⟩, fun hf => ?_⟩
        simp [hpf] at hf
      | some i =>
        obtain ⟨h1, h2, H, lrest, hev, hlen, hbody⟩ :=
          transformStep_found_shape st c i hpf hc hfb
        refine ⟨fun hf => ?_, fun _ => ⟨h2, H, lrest, ?_, hbody, hlen⟩⟩
        · rw [h1] at hf
          cases hf
        · rw [hev]
          rfl

theorem evShape_runChunks (cs : List (List Nat)) :
    ∀ (st : SplitterState) (evs : List SplitterEvent), EvShape st evs →
      EvShape (runChunks st cs).1 (evs ++ (runChunks st cs).2) := by
  induction cs with
  | nil => intro st evs h; simpa [runChunks] using h
  | cons c cs ih =>
    intro st evs h
    have h1 := evShape_transform st evs c h
    have h2 := ih (transformStep st c).1 (evs ++ (transformStep st c).2) h1
    rw [runChunks]
    simpa [List.append_assoc] using h2

theorem flushStep_some (st : SplitterState) (chunks : List (List Nat))
    (hch : st.headerChunks = some chunks) :
    flushStep st =
      ({ st with
          headersParsed := true
          headerBytes := st.headerBytes + 4
          headerChunks := none
          rawHeaders := some (jsBufferConcat (chunks ++ [[13, 10, 13, 10]]) (st.headerBytes + 4))
          headers := some (parseHeaders (jsBufferConcat (chunks ++ [[13, 10, 13, 10]]) (st.headerBytes + 4))) },
        [.headers (parseHeaders (jsBufferConcat (chunks ++ [[13, 10, 13, 10]]) (st.headerBytes + 4))),
          .body [13, 10]]) := by
  unfold flushStep
  rw [hch]

theorem flushStep_none (st : SplitterState) (hch : st.headerChunks = none) :
    flushStep st = (st, []) := by
  unfold flushStep
  rw [hch]

theorem evShape_flush (st : SplitterState) (evs : List SplitterEvent)
    (hs : EvShape st evs) :
    ∃ h rest, evs ++ (flushStep st).2 = .headers h :: rest ∧
      (∀ e ∈ rest, e.isBody = true) ∧ 1 ≤ h.length := by
  cases hch : st.headerChunks with
  | some chunks =>
    cases hp : st.headersParsed
    · obtain ⟨hevs, _⟩ := hs.1 hp
      subst hevs
      rw [flushStep_some st chunks hch]
      refine ⟨_, [.body [13, 10]], rfl, ?_, parseHeaders_length _⟩
      intro e he; simp at he; simp [he, SplitterEvent.isBody]
    · exact absurd hch (by rw [(hs.2 hp).1]; simp)
  | none =>
    cases hp : st.headersParsed
    · exact absurd hch (by rcases hs.1 hp with ⟨_, hsome⟩; intro hnone; rw [hnone] at hsome; simp at hsome)
    · obtain ⟨_, h, rest, hevs, hall, hlen⟩ := hs.2 hp
      rw [flushStep_none st hch]
      exact ⟨h, rest, by rw [hevs]; simp, hall, hlen⟩

theorem runChunks_cons (st : SplitterState) (c : List Nat) (cs : List (List Nat)) :
    runChunks st (c :: cs) =
      ((runChunks (transformStep st c).1 cs).1,
        (transformStep st c).2 ++ (runChunks (transformStep st c).1 cs).2) := by
  rw [runChunks]

theorem transformStep_parsed_mono (st : SplitterState) (c : List Nat)
    (hp : st.headersParsed = true) : (transformStep st c).1.headersParsed = true := by
  by_cases hc : c.length = 0
  · rw [transformStep_empty st c hc]; exact hp
  · rw [transformStep_parsed st c hp hc]; exact hp

theorem runChunks_parsed_mono (cs : List (List Nat)) :
    ∀ st : SplitterState, st.headersParsed = true →
      (runChunks st cs).1.headersParsed = true := by
  induction cs with
  | nil => intro st hp; exact hp
  | cons c cs ih =>
    intro st hp
    rw [runChunks_cons]
    exact ih _ (transformStep_parsed_mono st c hp)

/-- While the boundary has not been found, `runChunks` appends every
nonempty chunk to the accumulation buffer, counts every input byte into
`headerBytes`, and produces no events. -/
theorem runChunks_acc (cs : List (List Nat)) :
    ∀ (st : SplitterState) (l : List (List Nat)),
      st.headersParsed = false → st.headerChunks = some l →
      (runChunks st cs).1.headersParsed = false →
      (runChunks st cs).1.headerChunks
          = some (l ++ cs.filter fun c => !(c.length == 0)) ∧
        (runChunks st cs).1.headerBytes
          = st.headerBytes + ((cs.map List.length).sum : Int) ∧
        (runChunks st cs).2 = [] := by
  induction cs with
  | nil =>
    intro st l hpf hl _
    refine ⟨?_, ?_, ?_⟩ <;> simp [runChunks, hl]
  | cons c cs ih =>
    intro st l hpf hl hfin
    rw [runChunks_cons] at hfin ⊢
    have hstep : (transformStep st c).1.headersParsed = false := by
      cases hp2 : (transformStep st c).1.headersParsed
      · rfl
      · rw [runChunks_parsed_mono cs _ hp2] at hfin; cases hfin
    by_cases hc : c.length = 0
    · rw [transformStep_empty st c hc] at hfin hstep ⊢
      obtain ⟨h1, h2, h3⟩ := ih st l hpf hl hfin
      refine ⟨?_, ?_, by rw [h3]; rfl⟩
      · rw [h1]
        have : (c.length == 0) = true := by simp [hc]
        simp [List.filter_cons, this]
      · rw [h2]
        simp [hc]
    · cases hfb : findBoundary st.lastBytes c with
      | some i =>
        obtain ⟨h1, _, _⟩ := transformStep_found_shape st c i hpf hc hfb
        rw [h1] at hstep; cases hstep
      | none =>
        rw [transformStep_acc st c hpf hc hfb] at hfin hstep ⊢
        have hl2 : st.headerChunks.getD [] = l := by rw [hl]; rfl
        obtain ⟨h1, h2, h3⟩ := ih _ (l ++ [c]) (by exact hpf) (by rw [hl2]) hfin
        refine ⟨?_, ?_, by rw [h3]; rfl⟩
        · rw [h1]
          have : (c.length == 0) = false := by simp [hc]
          simp [List.filter_cons, this]
        · rw [h2]
          show st.headerBytes + (c.length : Int) + _ = _
          simp only [List.map_cons, List.sum_cons]
          push_cast
          ring

theorem jsBufferConcat_exact (ls : List (List Nat)) :
    jsBufferConcat ls (ls.flatten.length : Int) = ls.flatten := by
  unfold jsBufferConcat
  rw [Int.toNat_natCast]
  simp

theorem filter_flatten_eq (cs : List (List Nat)) :
    (cs.filter fun c => !(c.length == 0)).flatten = cs.flatten := by
  induction cs with
  | nil => rfl
  | cons c cs ih =>
    by_cases hc : c.length = 0
    · have hnil : c = [] := List.length_eq_zero.mp hc
      have : (c.length == 0) = true := by simp [hc]
      simp [List.filter_cons, this, hnil, ih]
    · have : (c.length == 0) = false := by simp [hc]
      simp [List.filter_cons, this, ih]

/-- If a completed run never found the boundary, the whole input (in order,
with the synthesized CRLF CRLF terminator) is parsed as headers and the body
output is exactly one CRLF. -/
theorem noBoundary_run (chunks : List (List Nat))
    (hnf : (runChunks initialState chunks).1.headersParsed = false) :
    runSplitter chunks =
      [.headers (parseHeaders (chunks.flatten ++ [13, 10, 13, 10])), .body [13, 10]] := by
  obtain ⟨hch, hbytes, hevs⟩ := runChunks_acc chunks initialState [] rfl rfl hnf
  rw [List.nil_append] at hch
  have hfl : (List.filter (fun (c : List Nat) => !(c.length == 0)) chunks
        ++ [[13, 10, 13, 10]]).flatten
      = chunks.flatten ++ [13, 10, 13, 10] := by
    rw [List.flatten_append, filter_flatten_eq]
    rfl
  have htot : (runChunks initialState chunks).1.headerBytes + 4
      = (((List.filter (fun (c : List Nat) => !(c.length == 0)) chunks
            ++ [[13, 10, 13, 10]]).flatten).length : Int) := by
    rw [hbytes, hfl]
    simp [initialState, List.length_flatten]
  have hconcat : jsBufferConcat (List.filter (fun (c : List Nat) => !(c.length == 0)) chunks
        ++ [[13, 10, 13, 10]])
      ((runChunks initialState chunks).1.headerBytes + 4) = chunks.flatten ++ [13, 10, 13, 10] := by
    rw [htot, jsBufferConcat_exact, hfl]
  have hflush := flushStep_some (runChunks initialState chunks).1 _ hch
  rw [hconcat] at hflush
  unfold runSplitter runSplitterFull
  dsimp only
  rw [hevs, hflush]
  rfl

theorem byteAt_eq_getD (lb data : List Nat) (i : Nat) :
    byteAt lb data i = (lb ++ data).getD i 0 := by
  unfold byteAt
  by_cases h : i < lb.length
  · rw [if_pos h, List.getD_append _ _ _ _ h]
  · rw [if_neg h, List.getD_append_right _ _ _ _ (by omega)]

theorem fireAt_imp_lt (lb data : List Nat) (i : Nat)
    (h : fireAt lb data i = true) : i < lb.length + data.length := by
  by_contra hge
  have h1 : byteAt lb data i = 0 := by
    unfold byteAt
    rw [if_neg (by omega)]
    exact List.getD_eq_default _ _ (by omega)
  simp [fireAt, h1] at h

theorem fireAt_iff_matchDecl (lb data : List Nat) (i : Nat) :
    fireAt lb data i = true ↔ matchDecl (lb ++ data) i := by
  unfold fireAt matchDecl
  constructor
  · intro h
    have hlt := fireAt_imp_lt lb data i h
    simp only [Bool.and_eq_true, Bool.or_eq_true, beq_iff_eq, bne_iff_ne,
      decide_eq_true_eq] at h
    obtain ⟨⟨h10, hne⟩, hpat⟩ := h
    refine ⟨by simpa using hlt, by rw [← byteAt_eq_getD]; exact h10, ?_⟩
    rcases hpat with h1 | ⟨⟨h1, h2⟩, h3⟩
    · exact Or.inl ⟨by omega, by rw [← byteAt_eq_getD]; exact h1⟩
    · exact Or.inr ⟨by omega, by rw [← byteAt_eq_getD]; exact h1,
        by rw [← byteAt_eq_getD]; exact h3⟩
  · intro ⟨hlt, h10, hpat⟩
    simp only [Bool.and_eq_true, Bool.or_eq_true, beq_iff_eq, bne_iff_ne,
      decide_eq_true_eq]
    refine ⟨⟨by rw [byteAt_eq_getD]; exact h10, ?_⟩, ?_⟩
    · rcases hpat with ⟨h1, _⟩ | ⟨h1, _⟩ <;> omega
    · rcases hpat with ⟨h1, h2⟩ | ⟨h1, h2, h3⟩
      · exact Or.inl (by rw [byteAt_eq_getD]; exact h2)
      · exact Or.inr ⟨⟨by rw [byteAt_eq_getD]; exact h2, by omega⟩,
          by rw [byteAt_eq_getD]; exact h3⟩

theorem findBoundaryAux_some_iff (lb data : List Nat) :
    ∀ (fuel i0 j : Nat), findBoundaryAux lb data i0 fuel = some j ↔
      (i0 ≤ j ∧ j < i0 + fuel ∧ fireAt lb data j = true ∧
        ∀ k, i0 ≤ k → k < j → fireAt lb data k = false) := by
  intro fuel
  induction fuel with
  | zero =>
    intro i0 j
    simp only [findBoundaryAux]
    constructor
    · intro h; cases h
    · intro ⟨h1, h2, _⟩; omega
  | succ fuel ih =>
    intro i0 j
    simp only [findBoundaryAux]
    by_cases hf : fireAt lb data i0 = true
    case pos =>
      rw [if_pos hf]
      constructor
      · intro h
        have hj : j = i0 := by cases h; rfl
        subst hj
        exact ⟨le_refl _, by omega, hf, fun k hk1 hk2 => by omega⟩
      · intro ⟨h1, h2, h3, h4⟩
        have : j = i0 := by
          by_contra hne
          have := h4 i0 (le_refl _) (by omega)
          rw [hf] at this; cases this
        rw [this]
    case neg =>
      have hf2 : fireAt lb data i0 = false := by
        cases hb : fireAt lb data i0
        · rfl
        · exact absurd hb hf
      rw [if_neg hf]
      rw [ih (i0 + 1) j]
      constructor
      · intro ⟨h1, h2, h3, h4⟩
        refine ⟨by omega, by omega, h3, fun k hk1 hk2 => ?_⟩
        by_cases hk : k = i0
        · rw [hk]; exact hf2
        · exact h4 k (by omega) hk2
      · intro ⟨h1, h2, h3, h4⟩
        have hne : j ≠ i0 := by
          intro he; rw [he, hf2] at h3; cases h3
        exact ⟨by omega, by omega, h3, fun k hk1 hk2 => h4 k (by omega) hk2⟩

theorem findBoundary_some_iff (lb data : List Nat) (j : Nat) :
    findBoundary lb data = some j ↔
      (fireAt lb data j = true ∧ ∀ k, k < j → fireAt lb data k = false) := by
  unfold findBoundary
  rw [findBoundaryAux_some_iff]
  constructor
  · intro ⟨_, _, h3, h4⟩
    exact ⟨h3, fun k hk => h4 k (by omega) hk⟩
  · intro ⟨h3, h4⟩
    exact ⟨by omega, by simpa using fireAt_imp_lt lb data j h3,
      h3, fun k _ hk => h4 k hk⟩

/-- The two `Buffer.slice` calls of the found branch partition the chunk at
`headerPos`: no byte of the triggering chunk escapes the two regions. -/
theorem jsSlice_partition (l : List Nat) (hp : Int) :
    jsSlice l 0 hp ++ jsSliceFrom l hp = l := by
  have e1 : jsNormIdx l.length 0 = 0 := by simp [jsNormIdx]
  have e2 : jsNormIdx l.length (l.length : Int) = l.length := by simp [jsNormIdx]
  unfold jsSliceFrom jsSlice
  rw [e1, e2, List.drop_zero, List.take_length, List.take_append_drop]

/-- `updateLastBytes` keeps exactly the trailing `lastBytes.length` bytes of
the virtual concatenation, in order. -/
theorem updateLastBytes_eq (lb data : List Nat) :
    updateLastBytes lb data
      = (lb ++ data).drop ((lb ++ data).length - lb.length) := by
  have hd : (lb ++ data).length - lb.length = data.length := by simp
  rw [hd]
  apply List.ext_getElem
  · simp [updateLastBytes]
  · intro j h1 h2
    have hj : j < lb.length := by simpa [updateLastBytes] using h1
    simp only [updateLastBytes, List.getElem_map, List.getElem_range]
    rw [List.getElem_drop]
    by_cases hcase : data.length < lb.length
    · have hm : min data.length lb.length = data.length := by omega
      rw [hm]
      by_cases hc2 : j < lb.length - data.length
      · rw [if_pos hc2, List.getElem_append_left (by omega),
          List.getD_eq_getElem _ _ (by omega : j + data.length < lb.length)]
        congr 1
        omega
      · rw [if_neg hc2, List.getElem_append_right (by omega),
          List.getD_eq_getElem _ _
            (by omega : data.length - (lb.length - j) < data.length)]
        congr 1
        omega
    · have hm : min data.length lb.length = lb.length := by omega
      rw [hm]
      rw [if_neg (by omega), List.getElem_append_right (by omega),
        List.getD_eq_getElem _ _
          (by omega : data.length - (lb.length - j) < data.length)]
      congr 1
      omega

/-- Every completed stream's event log is one header block (never empty)
followed only by body chunks. -/
theorem runSplitter_shape (chunks : List (List Nat)) :
    ∃ h rest, runSplitter chunks = .headers h :: rest ∧
      (∀ e ∈ rest, e.isBody = true) ∧ 1 ≤ h.length := by
  have h0 : EvShape initialState [] := by
    constructor
    · intro _; simp [initialState]
    · intro hcontra; simp [initialState] at hcontra
  have h1 := evShape_runChunks chunks initialState [] h0
  have h2 := evShape_flush _ _ h1
  simpa [runSplitter, runSplitterFull] using h2

/-! ## Claims -/

/-- C1: the conservation claim fails on the code.  For the single chunk
`A\n\nB` (bytes `[65, 10, 10, 66]`) the boundary fires at scan index 6
(`headerPos = 3`), 3 bytes are consumed as headers, but the guard
`data.length - 1 > headerPos` (`4 - 1 > 3` is false) suppresses the push of
the 1-byte leftover body, so 0 body bytes are forwarded and
`3 + 0 ≠ 4`: the byte `B` is dropped, contradicting "No input byte is ever
dropped". -/
theorem claim1_conservation_broken :
    findBoundary initialState.lastBytes [65, 10, 10, 66] = some 6 ∧
    (runSplitterFull [[65, 10, 10, 66]]).1.headerBytes = 3 ∧
    bodyBytesOf (runSplitter [[65, 10, 10, 66]]) = 0 ∧
    (runSplitterFull [[65, 10, 10, 66]]).1.headerBytes
        + bodyBytesOf (runSplitter [[65, 10, 10, 66]])
      ≠ (([65, 10, 10, 66] : List Nat).length : Int) := by
  decide

/-- C2: chunk-fragmentation invariance fails on the code.  The same bytes
`A\n\nB` fed as `["A\n\n", "B"]` forward the body `B`, but fed as the single
chunk `"A\n\nB"` forward no body at all (the 1-byte leftover is dropped by
the `data.length - 1 > headerPos` guard), although both fragmentations have
the same concatenation and produce the same header block.  The claim's own
cross-chunk example (`Header: 1\r\n\r` + `\nBODY`) does hold. -/
theorem claim2_fragmentation_broken :
    runSplitter [[65, 10, 10], [66]]
        = [.headers [⟨[], [65]⟩], .body [66]] ∧
    runSplitter [[65, 10, 10, 66]] = [.headers [⟨[], [65]⟩]] ∧
    ([[65, 10, 10], [66]] : List (List Nat)).flatten
        = ([[65, 10, 10, 66]] : List (List Nat)).flatten ∧
    runSplitter [[65, 10, 10], [66]] ≠ runSplitter [[65, 10, 10, 66]] ∧
    runSplitter [[72, 101, 97, 100, 101, 114, 58, 32, 49, 13, 10, 13],
        [10, 66, 79, 68, 89]]
      = [.headers [⟨[104, 101, 97, 100, 101, 114],
            [72, 101, 97, 100, 101, 114, 58, 32, 49]⟩],
         .body [66, 79, 68, 89]] := by
  decide

/-- C3: on every completed stream the header notification is emitted exactly
once, it is the very first observable event, and everything after it is body
output — so it strictly precedes every body byte, in the boundary-in-chunk
case and in the flush case alike. -/
theorem claim3_single_emission_ordering (chunks : List (List Nat)) :
    ∃ h rest, runSplitter chunks = .headers h :: rest ∧
      (∀ e ∈ rest, e.isBody = true) ∧
      (runSplitter chunks).countP SplitterEvent.isHeaders = 1 := by
  obtain ⟨h, rest, he, hall, _⟩ := runSplitter_shape chunks
  refine ⟨h, rest, he, hall, ?_⟩
  rw [he, List.countP_cons]
  have hz : rest.countP SplitterEvent.isHeaders = 0 := by
    rw [List.countP_eq_zero]
    intro e he2
    have hb := hall e he2
    cases e
    · simp [SplitterEvent.isBody] at hb
    · simp [SplitterEvent.isHeaders]
  rw [hz]
  simp [SplitterEvent.isHeaders]

/-- C4 counterexample: the claimed HeaderBlock for
`Subject: Hello\r\n World\r\n\r\nBODY` has line `Subject: Hello\nWorld`,
but the code keeps the continuation line's leading space
(`lines[i - 1] += '\n' + lines[i]` concatenates the raw continuation line),
so the actual line is `Subject: Hello\n World`. -/
theorem claim4_folding_cex :
    runSplitter [subjectInput] ≠
      [.headers [⟨[115, 117, 98, 106, 101, 99, 116],
          [83, 117, 98, 106, 101, 99, 116, 58, 32, 72, 101, 108, 108, 111,
           10, 87, 111, 114, 108, 100]⟩],
       .body [66, 79, 68, 89]] := by
  decide

/-- C4 (amended): `Subject: Hello\r\n World\r\n\r\nBODY` yields the
HeaderBlock `[{key: "subject", line: "Subject: Hello\n World"}]` (the
continuation keeps its leading whitespace) and body `BODY`; and in general a
continuation line is merged into the immediately preceding line separated by
a single newline character, preserving top-to-bottom order. -/
theorem claim4_folding :
    runSplitter [subjectInput] =
      [.headers [⟨[115, 117, 98, 106, 101, 99, 116],
          [83, 117, 98, 106, 101, 99, 116, 58, 32, 72, 101, 108, 108, 111,
           10, 32, 87, 111, 114, 108, 100]⟩],
       .body [66, 79, 68, 89]] ∧
    (∀ (cur cont : List Nat) (rest : List (List Nat)),
      isContinuationLine cont = true →
        headerGo cur (cont :: rest) = headerGo (cur ++ 10 :: cont) rest) := by
  refine ⟨by decide, fun cur cont rest h => ?_⟩
  simp [headerGo, h]

theorem claim4_folding_witness :
    isContinuationLine [32, 87, 111, 114, 108, 100] = true ∧
    headerGo [83, 117, 98, 106, 101, 99, 116, 58, 32, 72, 101, 108, 108, 111]
        [[32, 87, 111, 114, 108, 100]]
      = headerGo ([83, 117, 98, 106, 101, 99, 116, 58, 32, 72, 101, 108, 108, 111]
          ++ 10 :: [32, 87, 111, 114, 108, 100]) [] :=
  ⟨by decide, claim4_folding.2 _ _ _ (by decide)⟩

/-- C5: the scan of `checkHeaders` fires exactly at the leftmost index of
the virtual concatenation satisfying the declarative LF-LF / LF-CR-LF rule;
on a hit from an accumulating state, `headerPos = i - lblen + 1` bytes of
the current chunk are counted as header bytes and the two slices at
`headerPos` partition the chunk into the header part and the body part; and
the rule also fires on the mixed line-ending input `A\n\r\nB` (at index 7 of
the window-plus-chunk concatenation, i.e. `headerPos = 4`), where the LF
ending the first line is followed by a CR-LF. -/
theorem claim5_boundary_rule :
    (∀ (lb data : List Nat) (i : Nat), findBoundary lb data = some i ↔
        (matchDecl (lb ++ data) i ∧ ∀ j, j < i → ¬ matchDecl (lb ++ data) j)) ∧
    (∀ (st : SplitterState) (data : List Nat) (i : Nat),
        st.headersParsed = false → findBoundary st.lastBytes data = some i →
        (checkHeaders st data).1.headerBytes
            = st.headerBytes + ((i : Int) - st.lastBytes.length + 1) ∧
        jsSlice data 0 ((i : Int) - st.lastBytes.length + 1)
            ++ jsSliceFrom data ((i : Int) - st.lastBytes.length + 1) = data) ∧
    findBoundary (List.replicate 4 0) [65, 10, 13, 10, 66] = some 7 := by
  refine ⟨?_, ?_, by decide⟩
  · intro lb data i
    rw [findBoundary_some_iff]
    constructor
    · rintro ⟨h1, h2⟩
      refine ⟨(fireAt_iff_matchDecl lb data i).mp h1, fun j hj hm => ?_⟩
      have hf := (fireAt_iff_matchDecl lb data j).mpr hm
      rw [h2 j hj] at hf
      cases hf
    · rintro ⟨h1, h2⟩
      refine ⟨(fireAt_iff_matchDecl lb data i).mpr h1, fun k hk => ?_⟩
      cases hb : fireAt lb data k
      · rfl
      · exact absurd ((fireAt_iff_matchDecl lb data k).mp hb) (h2 k hk)
  · intro st data i hpf hfb
    constructor
    · unfold checkHeaders
      rw [hpf, hfb]
      rfl
    · exact jsSlice_partition data _

theorem claim5_boundary_rule_witness :
    jsSlice [65, 10, 13, 10, 66] 0 ((7 : Int) - (initialState.lastBytes.length : Int) + 1)
        ++ jsSliceFrom [65, 10, 13, 10, 66] ((7 : Int) - (initialState.lastBytes.length : Int) + 1)
      = [65, 10, 13, 10, 66] :=
  (claim5_boundary_rule.2.1 initialState [65, 10, 13, 10, 66] 7 rfl (by decide)).2

/-- C6: if the whole stream is consumed without the boundary ever being
found, the flush path appends the canonical CRLF CRLF terminator to
everything received, emits the parsed headers once, and pushes a lone CRLF
as the entire body — no error. -/
theorem claim6_no_boundary (chunks : List (List Nat))
    (hnf : (runChunks initialState chunks).1.headersParsed = false) :
    runSplitter chunks =
      [.headers (parseHeaders (chunks.flatten ++ [13, 10, 13, 10])),
       .body [13, 10]] :=
  noBoundary_run chunks hnf

theorem claim6_no_boundary_witness :
    (runChunks initialState [[88, 45, 84, 101, 115, 116, 58, 32, 49]]).1.headersParsed
        = false ∧
    runSplitter [[88, 45, 84, 101, 115, 116, 58, 32, 49]] =
      [.headers [⟨[120, 45, 116, 101, 115, 116],
          [88, 45, 84, 101, 115, 116, 58, 32, 49]⟩],
       .body [13, 10]] :=
  ⟨by decide, by rw [claim6_no_boundary _ (by decide)]; decide⟩

/-- C7: `X-Broken\r\n\r\nBODY` yields the single entry
`{key: "", line: "X-Broken"}` and body `BODY`; a merged line with no colon
always gets the empty key with its text preserved (`indexOf` returns `-1`,
`substr(0, -1)` is empty); and `parseHeaders` is total — it returns a result
on every input (the Lean embedding is a total function, mirroring the JS
code which has no failing path). -/
theorem claim7_parse_total_no_colon :
    runSplitter [[88, 45, 66, 114, 111, 107, 101, 110, 13, 10, 13, 10, 66, 79, 68, 89]]
        = [.headers [⟨[], [88, 45, 66, 114, 111, 107, 101, 110]⟩],
           .body [66, 79, 68, 89]] ∧
    (∀ line : List Nat, jsIndexOf line 58 = -1 → mkEntry line = ⟨[], line⟩) ∧
    (∀ hs : List Nat, ∃ entries, parseHeaders hs = entries) := by
  refine ⟨by decide, ?_, fun hs => ⟨_, rfl⟩⟩
  intro line h
  unfold mkEntry
  rw [h]
  rfl

theorem claim7_parse_total_no_colon_witness :
    mkEntry [88, 45, 66, 114, 111, 107, 101, 110]
      = ⟨[], [88, 45, 66, 114, 111, 107, 101, 110]⟩ :=
  claim7_parse_total_no_colon.2.1 _ (by decide)

/-- C8: consuming a chunk while still accumulating, with no match in the
window-plus-chunk concatenation, appends the whole chunk to the
accumulation, counts its bytes, and leaves the TailWindow equal to the last
4 bytes of (previous window ++ chunk) — older bytes shift out, and for a
chunk shorter than 4 the surviving older bytes stay in order. -/
theorem claim8_tail_window (st : SplitterState) (data : List Nat)
    (hlb : st.lastBytes.length = 4) (hpf : st.headersParsed = false)
    (hfb : findBoundary st.lastBytes data = none) :
    checkHeaders st data =
      ({ st with
          headerBytes := st.headerBytes + data.length
          headerChunks := some (st.headerChunks.getD [] ++ [data])
          lastBytes := (st.lastBytes ++ data).drop
            (st.lastBytes.length + data.length - 4) }, [], false) := by
  have hlen : (st.lastBytes ++ data).length - st.lastBytes.length
      = st.lastBytes.length + data.length - 4 := by
    simp [List.length_append, hlb]
  rw [checkHeaders_noBoundary st data hpf hfb, updateLastBytes_eq, hlen]

theorem claim8_tail_window_witness :
    initialState.lastBytes.length = 4 ∧
    initialState.headersParsed = false ∧
    findBoundary initialState.lastBytes [65, 66] = none ∧
    checkHeaders initialState [65, 66] =
      ({ initialState with
          headerBytes := initialState.headerBytes + ([65, 66] : List Nat).length
          headerChunks := some (initialState.headerChunks.getD [] ++ [[65, 66]])
          lastBytes := (initialState.lastBytes ++ [65, 66]).drop
            (initialState.lastBytes.length + ([65, 66] : List Nat).length - 4) }, [], false) :=
  ⟨rfl, rfl, by decide, claim8_tail_window initialState [65, 66] rfl rfl (by decide)⟩

/-- C9 (implicit): `parseHeaders` never returns an empty block — even the
empty buffer parses to the single entry `{key: "", line: ""}` — and
consequently every completed stream, including the empty stream, emits a
header notification carrying at least one entry. -/
theorem claim9_header_block_nonempty :
    (∀ hs : List Nat, 1 ≤ (parseHeaders hs).length) ∧
    parseHeaders [] = [⟨[], []⟩] ∧
    (∀ chunks : List (List Nat), ∃ h rest,
        runSplitter chunks = .headers h :: rest ∧ 1 ≤ h.length) := by
  refine ⟨parseHeaders_length, by decide, fun chunks => ?_⟩
  obtain ⟨h, rest, he, _, hlen⟩ := runSplitter_shape chunks
  exact ⟨h, rest, he, hlen⟩

/-- C10 (implicit): a first line that starts with space or tab is never
spliced away (the loop guard requires `i` nonzero): it heads the resulting
block as its own entry, absorbing any continuation lines that follow it, and
its key is computed from the merged line's text before its first colon by
the usual normalization (this is what `mkEntry` does). -/
theorem claim10_leading_continuation (l : List Nat) (ls : List (List Nat))
    (_h : isContinuationLine l = true) :
    parseLines (l :: ls)
      = mkEntry (foldContinuations l (ls.takeWhile isContinuationLine))
          :: parseLines (ls.dropWhile isContinuationLine) := by
  show headerGo l ls = _
  exact headerGo_span ls l

theorem claim10_leading_continuation_witness :
    isContinuationLine [32, 87, 101, 105, 114, 100, 58, 32, 120] = true ∧
    parseLines [[32, 87, 101, 105, 114, 100, 58, 32, 120]]
      = mkEntry (foldContinuations [32, 87, 101, 105, 114, 100, 58, 32, 120]
          (List.takeWhile isContinuationLine ([] : List (List Nat))))
          :: parseLines (List.dropWhile isContinuationLine ([] : List (List Nat))) :=
  ⟨by decide, claim10_leading_continuation _ [] (by decide)⟩

end MessageSplitter
